import Mathlib

/-!
Verification of the document segmentation and retrieval pipeline
(normalizer, section extractor, chunker, retriever, confidence estimator)
of the leadership-call knowledge-base system, against its specification.

Text is modelled as `List Char`.  The reachable regular-expression
substitutions of `DocumentProcessor.clean_text` are embedded as explicit
character-list transformations, and its unconditionally raising fifth
substitution (whose pattern is invalid) as an `Except` error; the
FAQ/meeting extraction regexes are embedded via a small
backtracking regex engine mirroring Python `re` semantics (leftmost match,
ordered alternation, greedy/lazy quantifiers, lookahead, MULTILINE/DOTALL).
All definitions are executable so concrete scenarios evaluate by `decide`.
-/

/-- Characters matched by Python's `\s` (Unicode whitespace for `str` patterns). -/
def pySpaceChars : List Char :=
  [' ', '\t', '\n', '\r', Char.ofNat 0x0b, Char.ofNat 0x0c,
   Char.ofNat 0x1c, Char.ofNat 0x1d, Char.ofNat 0x1e, Char.ofNat 0x1f,
   Char.ofNat 0x85, Char.ofNat 0xa0, Char.ofNat 0x1680,
   Char.ofNat 0x2000, Char.ofNat 0x2001, Char.ofNat 0x2002, Char.ofNat 0x2003,
   Char.ofNat 0x2004, Char.ofNat 0x2005, Char.ofNat 0x2006, Char.ofNat 0x2007,
   Char.ofNat 0x2008, Char.ofNat 0x2009, Char.ofNat 0x200a,
   Char.ofNat 0x2028, Char.ofNat 0x2029, Char.ofNat 0x202f,
   Char.ofNat 0x205f, Char.ofNat 0x3000]

/-- Python `\s` as a Boolean predicate. -/
def isPySpace (c : Char) : Bool := pySpaceChars.contains c

/-- Python `\w` (word character), restricted to the ASCII range: letters,
digits and underscore.  The claims under verification only involve ASCII
word characters, whitespace and the punctuation of the allow-list below. -/
def isWordChar (c : Char) : Bool := c.isAlphanum || c = '_'

/-- The punctuation/symbol allow-list of `clean_text`'s third substitution,
`[^\w\s\-.,!?():"\'/@#$%&*+=\[\]{}|\\`~<>]`: characters NOT in this class
(and not word characters or whitespace) are removed. -/
def allowedPunct : List Char :=
  ['-', '.', ',', '!', '?', '(', ')', ':', '"', '\'', '/', '@', '#', '$',
   '%', '&', '*', '+', '=', '[', ']', '\x7b', '\x7d', '|', '\\', '`', '~', '<', '>']

/-- A character survives `clean_text`'s special-character removal. -/
def allowedChar (c : Char) : Bool := isWordChar c || isPySpace c || allowedPunct.contains c

/-- First substitution of `clean_text`: `re.sub(r'\s+', ' ', text)` —
every maximal run of whitespace becomes a single space.  Structurally
recursive right fold: a whitespace character merges into a following
collapsed space if one is already there. -/
def collapseWs : List Char → List Char
  | [] => []
  | c :: cs =>
    let rest := collapseWs cs
    if isPySpace c then
      match rest with
      | [] => [' ']
      | d :: _ => if isPySpace d then rest else ' ' :: rest
    else c :: rest

/-- Index of the last newline in a list, if any (used to mirror the greedy
`\n\s*\n` match of `clean_text`'s second substitution). -/
def lastNlIdx (l : List Char) : Option Nat :=
  ((l.enum.filter (fun pr => pr.2 = '\n')).getLast?).map (fun pr => pr.1)

/-- Second substitution of `clean_text`: `re.sub(r'\n\s*\n', '\n', text)`.
A match starts at a newline; the greedy `\s*` extends to the last newline of
the maximal whitespace run that follows; the whole match is replaced by a
single newline and scanning resumes after it.  Fuel-based so that the
kernel can evaluate it; fuel `l.length` always suffices since every step
consumes at least one character. -/
def removeBlankAux : Nat → List Char → List Char
  | 0, l => l
  | _ + 1, [] => []
  | f + 1, c :: cs =>
    if c = '\n' then
      match lastNlIdx (cs.takeWhile isPySpace) with
      | some j => '\n' :: removeBlankAux f (cs.drop (j + 1))
      | none => c :: removeBlankAux f cs
    else c :: removeBlankAux f cs

/-- Second substitution of `clean_text` (wrapper supplying fuel). -/
def removeBlankLines (l : List Char) : List Char := removeBlankAux l.length l

/-- Third substitution of `clean_text`: remove characters outside the
allow-list. -/
def filterAllowed (l : List Char) : List Char := l.filter allowedChar

/-- Fourth substitution of `clean_text`, source line 41:
`re.sub(r'[""]', '"', text)`.  The pattern's character class contains two
straight double quotes (not curly ones), so the substitution replaces a
straight double quote by itself — a no-op; curly quotes are untouched. -/
def mapDq (l : List Char) : List Char :=
  l.map (fun c => if c = '"' then '"' else c)

/-- The message of the `re.error` raised when compiling the fifth
substitution's pattern: source line 42 is `re.sub(r'['']', "'", text)`,
whose first argument tokenizes as the two adjacent string literals `r'['`
and `']'`, i.e. the pattern `[]` — an unterminated character set, invalid
on every call, for every input. -/
def reErrMsg : String := "unterminated character set at position 0"

/-- Python `str.strip()`: drop whitespace from the end. -/
def dropTrailWs (l : List Char) : List Char := ((l.reverse).dropWhile isPySpace).reverse

/-- Python `str.strip()` on a character list. -/
def stripWs (l : List Char) : List Char := dropTrailWs (l.dropWhile isPySpace)

/-- The intermediate value of `clean_text` after its first four
substitutions — the program state at the point where the fifth
substitution raises.  The trailing `return text.strip()` of the source is
never reached. -/
def cleanTextPartial (l : List Char) : List Char :=
  mapDq (filterAllowed (removeBlankLines (collapseWs l)))

/-- `DocumentProcessor.clean_text`: the first four substitutions are
computed, then the fifth substitution unconditionally raises `re.error`
(its pattern `[]` is invalid), so the function returns no value on any
input. -/
def cleanText (l : List Char) : Except String (List Char) :=
  let _t4 := cleanTextPartial l
  .error reErrMsg

example : cleanTextPartial "  a  b ".data = " a b ".data := by decide
example : cleanTextPartial "a\n\nb".data = "a b".data := by decide
example : cleanText "a b".data = .error reErrMsg := rfl

/-! Properties of the normalizer. -/

theorem collapseWs_mem : ∀ l c, c ∈ collapseWs l → c = ' ' ∨ (c ∈ l ∧ isPySpace c = false) := by
  intro l
  induction l with
  | nil => intro c hc; simp [collapseWs] at hc
  | cons a as ih =>
    intro c hc
    by_cases ha : isPySpace a
    · simp only [collapseWs, ha, if_pos] at hc
      rcases h : collapseWs as with _ | ⟨d, ds⟩
      · rw [h] at hc; simp at hc; left; exact hc
      · rw [h] at hc
        by_cases hd : isPySpace d
        · simp only [hd, if_pos] at hc
          rcases ih c (h ▸ hc) with h1 | h2
          · left; exact h1
          · right; exact ⟨List.mem_cons_of_mem a h2.1, h2.2⟩
        · simp only [hd, if_neg] at hc
          rcases List.mem_cons.mp hc with h1 | h2
          · left; exact h1
          · rcases ih c (h ▸ h2) with h1 | h3
            · left; exact h1
            · right; exact ⟨List.mem_cons_of_mem a h3.1, h3.2⟩
    · simp only [collapseWs, ha, if_neg, Bool.false_eq_true, not_false_iff] at hc
      rcases List.mem_cons.mp hc with h1 | h2
      · right; subst h1; exact ⟨List.mem_cons_self c as, by simpa using ha⟩
      · rcases ih c h2 with h1 | h3
        · left; exact h1
        · right; exact ⟨List.mem_cons_of_mem a h3.1, h3.2⟩

theorem removeBlankAux_id : ∀ f l, '\n' ∉ l → removeBlankAux f l = l := by
  intro f
  induction f with
  | zero => intro l _; rfl
  | succ f ih =>
    intro l hl
    cases l with
    | nil => rfl
    | cons c cs =>
      have hc : ¬(c = '\n') := fun h => hl (h ▸ List.mem_cons_self c cs)
      simp only [removeBlankAux, hc, if_neg, not_false_iff]
      rw [ih cs (fun h => hl (List.mem_cons_of_mem c h))]

theorem removeBlankLines_id (l : List Char) (hl : '\n' ∉ l) : removeBlankLines l = l :=
  removeBlankAux_id l.length l hl

theorem collapseWs_no_newline (l : List Char) : '\n' ∉ collapseWs l := by
  intro h
  rcases collapseWs_mem l '\n' h with h1 | h2
  · exact absurd h1 (by decide)
  · exact absurd h2.2 (by decide)

theorem mapDq_eq_id : ∀ l : List Char, mapDq l = l := by
  intro l
  unfold mapDq
  have h : ∀ c ∈ l, (if c = '"' then '"' else c) = id c := by
    intro c _
    by_cases hc : c = '"'
    · rw [if_pos hc, hc]; rfl
    · rw [if_neg hc]; rfl
  rw [List.map_congr_left h, List.map_id]

/-- C1 — the claim is right as the specified contract (spec §4.1: a pure,
idempotent normalizer) but the code is wrong: `clean_text` raises
`re.error` on every call, because the fifth substitution's pattern
tokenizes to the invalid `[]`.  There is no input on which
`normalize(normalize(s)) == normalize(s)` ever compares two values, since
`normalize(s)` never produces one. -/
theorem cleanText_raises_so_idempotence_unmet :
    (∀ l : List Char, cleanText l = .error reErrMsg) ∧
    (cleanText "a".data).bind cleanText = .error reErrMsg ∧
    ¬∃ out : List Char, cleanText "a".data = .ok out := by
  refine ⟨fun l => rfl, rfl, ?_⟩
  rintro ⟨out, h⟩
  rw [show cleanText "a".data = Except.error reErrMsg from rfl] at h
  exact Except.noConfusion h

/-- C9 — the claim matches the spec and the code's own `Normalize quotes`
comment, but the code is wrong on both counts: the fourth substitution's
class `[""]` holds straight quotes, so it converts nothing (it is the
identity on every string), and the fifth substitution raises `re.error`
on every call, so `clean_text` returns no output at all — in particular
no output with straight quotes for the curly-quoted input `“hello”`. -/
theorem cleanText_quote_normalization_dead :
    (∀ l : List Char, mapDq l = l) ∧
    cleanText (Char.ofNat 0x201C :: ("hello".data ++ [Char.ofNat 0x201D])) =
      .error reErrMsg :=
  ⟨mapDq_eq_id, rfl⟩

/-- C10 — the intermediate value reaching the raise point after the first
four substitutions is always newline-free (the first substitution replaces
every whitespace run, including newlines, with a single space), but
`clean_text` raises `re.error` before returning it, so the function has
no output on any input — contradicting its callers (`process_document`
feeds the result to section extraction), and leaving the claimed
newline-free output nonexistent. -/
theorem cleanText_partial_no_newline_but_raises :
    (∀ l : List Char, '\n' ∉ cleanTextPartial l) ∧
    cleanText "line1\nline2".data = .error reErrMsg := by
  constructor
  · intro l hmem
    unfold cleanTextPartial at hmem
    rw [mapDq_eq_id] at hmem
    rw [removeBlankLines_id _ (collapseWs_no_newline l)] at hmem
    exact collapseWs_no_newline l (List.mem_of_mem_filter hmem)
  · rfl


/-! The Retriever: `KnowledgeBase.get_relevant_context`. -/

/-- Chunk metadata carried by an indexed document. -/
structure RDocMeta where
  document_type : String
  document_title : String
  section_type : String
  question : Option String
  answer : Option String
deriving DecidableEq

/-- An indexed document as returned by a similarity search. -/
structure RDoc where
  page_content : String
  metadata : RDocMeta
deriving DecidableEq

/-- A formatted context item produced by `get_relevant_context`. -/
structure CtxItem where
  content : String
  relevance_score : ℚ
  document_type : String
  document_title : String
  section_type : String
  question : Option String
  answer : Option String
deriving DecidableEq

/-- Ordering used by `all_results.sort(key=lambda x: x[1])`: compare by
distance score (lower is better). -/
def scoreLe (a b : RDoc × ℚ) : Prop := a.2 ≤ b.2

instance : DecidableRel scoreLe := fun a b => inferInstanceAs (Decidable (a.2 ≤ b.2))

instance : IsTotal (RDoc × ℚ) scoreLe := ⟨fun a b => le_total a.2 b.2⟩

instance : IsTrans (RDoc × ℚ) scoreLe := ⟨fun _ _ _ h1 h2 => le_trans h1 h2⟩

/-- Formatting of one `(doc, score)` pair into a context item; the
`question`/`answer` fields are carried through exactly when the chunk's
`section_type` is `faq`. -/
def toContextItem (d : RDoc) (score : ℚ) : CtxItem :=
  { content := d.page_content
    relevance_score := score
    document_type := d.metadata.document_type
    document_title := d.metadata.document_title
    section_type := d.metadata.section_type
    question := if d.metadata.section_type = "faq" then d.metadata.question else none
    answer := if d.metadata.section_type = "faq" then d.metadata.answer else none }

/-- The number of nearest entries requested from each per-type search:
`max_chunks // 2 + 1` (Python floor division). -/
def requestK (max_chunks : Nat) : Nat := max_chunks / 2 + 1

/-- `KnowledgeBase.get_relevant_context`, abstracted over the two per-type
similarity searches: query FAQs and meeting notes for `requestK max_chunks`
entries each, concatenate (FAQ first), stably sort ascending by score
(Python's `list.sort` is stable; `List.insertionSort` is the canonical
stable sort), truncate to `max_chunks`, and keep entries with score at most
`relevance_threshold`. -/
def get_relevant_context (searchFaqs searchMeetingNotes : Nat → List (RDoc × ℚ))
    (max_chunks : Nat) (relevance_threshold : ℚ) : List CtxItem :=
  let faq_results := searchFaqs (requestK max_chunks)
  let meeting_results := searchMeetingNotes (requestK max_chunks)
  let all_results := List.insertionSort scoreLe (faq_results ++ meeting_results)
  ((all_results.take max_chunks).filter (fun x => decide (x.2 ≤ relevance_threshold))).map
    (fun x => toContextItem x.1 x.2)

/-- Modelled from the spec, §4.5 steps 4-6: same retrieval but with the
spec's stated order of operations — filter by threshold first, THEN
truncate to `maxItems`. -/
def retrieveSpecOrder (searchFaqs searchMeetingNotes : Nat → List (RDoc × ℚ))
    (max_chunks : Nat) (relevance_threshold : ℚ) : List CtxItem :=
  let faq_results := searchFaqs (requestK max_chunks)
  let meeting_results := searchMeetingNotes (requestK max_chunks)
  let all_results := List.insertionSort scoreLe (faq_results ++ meeting_results)
  ((all_results.filter (fun x => decide (x.2 ≤ relevance_threshold))).take max_chunks).map
    (fun x => toContextItem x.1 x.2)

theorem take_filter_sorted (t : ℚ) :
    ∀ l : List (RDoc × ℚ), l.Pairwise scoreLe → ∀ m : Nat,
      (l.take m).filter (fun x => decide (x.2 ≤ t)) =
        (l.filter (fun x => decide (x.2 ≤ t))).take m := by
  intro l
  induction l with
  | nil => intro _ m; simp
  | cons a l' ih =>
    intro hp m
    rcases List.pairwise_cons.mp hp with ⟨ha, hp'⟩
    cases m with
    | zero => simp
    | succ m =>
      by_cases hat : a.2 ≤ t
      · simp only [List.take_succ_cons, List.filter_cons, decide_eq_true hat, if_pos,
          ih hp' m]
      · have hnone : ∀ b ∈ l', ¬(b.2 ≤ t) := fun b hb hbt => hat (le_trans (ha b hb) hbt)
        have h1 : l'.filter (fun x => decide (x.2 ≤ t)) = [] :=
          List.filter_eq_nil_iff.mpr (fun b hb => by simpa using hnone b hb)
        have h2 : (l'.take m).filter (fun x => decide (x.2 ≤ t)) = [] :=
          List.filter_eq_nil_iff.mpr
            (fun b hb => by simpa using hnone b (List.take_subset _ _ hb))
        simp [List.take_succ_cons, List.filter_cons, hat, h1, h2]

/-- C2 counterexample — the per-type queries do NOT request
`ceil(maxItems/2) + 1` entries: at `maxItems = 5` the code requests
`5 // 2 + 1 = 3`, while `ceil(5/2) + 1 = 4`. -/
theorem requestK_ne_ceil : requestK 5 ≠ (5 + 1) / 2 + 1 := by decide

/-- C2 (amended) — each of the two per-type Index queries in
`get_relevant_context` requests exactly `maxItems // 2 + 1` (floor
division) nearest entries — equal to `ceil(maxItems/2) + 1` only for even
`maxItems`.  Formally: the result depends on the search functions only
through their value at `requestK maxItems`. -/
theorem get_relevant_context_uses_floor_half_plus_one :
    ∀ (m : Nat) (t : ℚ) (sF sM sF' sM' : Nat → List (RDoc × ℚ)),
      sF (requestK m) = sF' (requestK m) → sM (requestK m) = sM' (requestK m) →
      get_relevant_context sF sM m t = get_relevant_context sF' sM' m t := by
  intro m t sF sM sF' sM' h1 h2
  unfold get_relevant_context
  rw [h1, h2]

/-- C2 witness: two pairs of search functions that agree at
`requestK 5 = 3` (but nowhere else) produce identical retrievals. -/
theorem get_relevant_context_uses_floor_half_plus_one_witness :
    get_relevant_context (fun k => if k = 3 then [] else [(⟨"x", "faq", "T", "faq", none, none⟩, 0)])
        (fun _ => []) 5 0 =
      get_relevant_context (fun k => if k = 3 then [] else [(⟨"y", "faq", "U", "faq", none, none⟩, 1)])
        (fun _ => []) 5 0 :=
  get_relevant_context_uses_floor_half_plus_one 5 0 _ _ _ _ (by decide) rfl

/-- The rational 0.1 in normalized form (kernel-reducible). -/
def q0_1 : ℚ := ⟨1, 10, by decide, by decide⟩

/-- The rational 0.3 in normalized form. -/
def q0_3 : ℚ := ⟨3, 10, by decide, by decide⟩

/-- The rational 0.9 in normalized form. -/
def q0_9 : ℚ := ⟨9, 10, by decide, by decide⟩

/-- The rational 0.7 in normalized form. -/
def q0_7 : ℚ := ⟨7, 10, by decide, by decide⟩

/-- The rational 0.5 in normalized form. -/
def q0_5 : ℚ := ⟨1, 2, by decide, by decide⟩

/-- A FAQ chunk used in the retrieval scenario. -/
def faqDocA : RDoc :=
  { page_content := "A"
    metadata := { document_type := "faq", document_title := "F", section_type := "faq",
                  question := some "qa", answer := some "aa" } }

/-- A second FAQ chunk used in the retrieval scenario. -/
def faqDocB : RDoc :=
  { page_content := "B"
    metadata := { document_type := "faq", document_title := "F", section_type := "faq",
                  question := some "qb", answer := some "ab" } }

/-- A meeting-notes chunk used in the retrieval scenario. -/
def meetDocC : RDoc :=
  { page_content := "C"
    metadata := { document_type := "meeting_notes", document_title := "M",
                  section_type := "meeting_section", question := none, answer := none } }

/-- C3 — the retriever concatenates the FAQ list before the meeting-notes
list, stably sorts the combination ascending by distance (FAQ before
meeting notes on equal distances), and its truncate-then-filter is
pointwise equal to the spec's filter-then-truncate (the kept entries form a
prefix of the sorted list); on retrieved distances 0.1, 0.9 (FAQ) and 0.3
(meeting) with threshold 0.7 and maxItems 5 the result has length 2 with
scores 0.1, 0.3 in ascending order. -/
theorem get_relevant_context_sort_filter_truncate :
    (∀ sF sM m t, get_relevant_context sF sM m t = retrieveSpecOrder sF sM m t) ∧
    (q0_1 = 1/10 ∧ q0_3 = 3/10 ∧ q0_9 = 9/10 ∧ q0_7 = 7/10) ∧
    ((get_relevant_context (fun _ => [(faqDocA, q0_1), (faqDocB, q0_9)])
        (fun _ => [(meetDocC, q0_3)]) 5 q0_7).map (fun it => it.relevance_score) =
      [q0_1, q0_3]) ∧
    ((get_relevant_context (fun _ => [(faqDocA, q0_1), (faqDocB, q0_9)])
        (fun _ => [(meetDocC, q0_3)]) 5 q0_7).length = 2) ∧
    ((get_relevant_context (fun _ => [(faqDocA, q0_5)])
        (fun _ => [(meetDocC, q0_5)]) 5 1).map (fun it => it.document_type) =
      ["faq", "meeting_notes"]) := by
  refine ⟨?_, ⟨?_, ?_, ?_, ?_⟩, by decide, by decide, by decide⟩
  · intro sF sM m t
    unfold get_relevant_context retrieveSpecOrder
    dsimp only
    have hs := List.sorted_insertionSort scoreLe (sF (requestK m) ++ sM (requestK m))
    rw [take_filter_sorted t _ hs m]
  · show (Rat.mk' 1 10 (by decide) (by decide) : ℚ) = 1 / 10
    rw [Rat.mk'_eq_divInt, Rat.divInt_eq_div]; norm_num
  · show (Rat.mk' 3 10 (by decide) (by decide) : ℚ) = 3 / 10
    rw [Rat.mk'_eq_divInt, Rat.divInt_eq_div]; norm_num
  · show (Rat.mk' 9 10 (by decide) (by decide) : ℚ) = 9 / 10
    rw [Rat.mk'_eq_divInt, Rat.divInt_eq_div]; norm_num
  · show (Rat.mk' 7 10 (by decide) (by decide) : ℚ) = 7 / 10
    rw [Rat.mk'_eq_divInt, Rat.divInt_eq_div]; norm_num

/-! The QA system: `QASystem.answer_question`. -/

/-- Source information attached to an answer (one entry per context item). -/
structure SourceInfo where
  document_type : String
  document_title : String
  section_type : String
  relevance_score : ℚ
  faq_question : Option String
deriving DecidableEq

/-- The result record of `answer_question` (the `timestamp` field, produced
by `datetime.now()`, is external I/O and is omitted). -/
structure AnswerResult where
  answer : String
  sources : List SourceInfo
  context_used : List CtxItem
  confidence : ℚ
  question : String
deriving DecidableEq

/-- The fixed no-context answer text of `answer_question`. -/
def insufficientMsg : String :=
  "I don't have enough information in my knowledge base to answer this question. Please check if the relevant documents have been added to the system."

/-- The error-path answer text of `answer_question`'s exception handler. -/
def errorMsg (e : String) : String :=
  "I encountered an error while processing your question: " ++ e

/-- Source extraction for one context item; the FAQ question is carried
through exactly when the item's `section_type` is `faq`. -/
def toSourceInfo (it : CtxItem) : SourceInfo :=
  { document_type := it.document_type
    document_title := it.document_title
    section_type := it.section_type
    relevance_score := it.relevance_score
    faq_question := if it.section_type = "faq" then it.question else none }

/-- The confidence computation of `answer_question`: mean of the context
items' relevance scores, mapped through `max(0, 1 - mean)`. -/
def answerConfidence (items : List CtxItem) : ℚ :=
  max 0 (1 - (items.map (fun it => it.relevance_score)).sum / (items.length : ℚ))

/-- `QASystem.answer_question`, abstracted over retrieval (the context
items are an input) and over the language-model call `llm` (which may fail,
modelling the exception handler): an empty context returns the fixed
insufficient-information result before any model call; otherwise the
answer, per-item sources and mean-based confidence are assembled. -/
def answer_question (llm : List CtxItem → String → Except String String)
    (context_items : List CtxItem) (question : String) : AnswerResult :=
  if context_items.isEmpty then
    { answer := insufficientMsg, sources := [], context_used := [], confidence := 0,
      question := question }
  else
    match llm context_items question with
    | .error e =>
      { answer := errorMsg e, sources := [], context_used := [], confidence := 0,
        question := question }
    | .ok ans =>
      { answer := ans, sources := context_items.map toSourceInfo,
        context_used := context_items, confidence := answerConfidence context_items,
        question := question }

/-- The confidence value produced by `answer_question` for a given context
list (the language-model call does not affect it on the success path). -/
def confidenceOf (items : List CtxItem) : ℚ :=
  (answer_question (fun _ _ => .ok "") items "").confidence

/-- C8 — when retrieval returns an empty context list, `answer_question`
returns (for every language model, i.e. without calling it and without
raising) the fixed insufficient-information answer with confidence exactly
0 and an empty sources list. -/
theorem answer_question_empty_context :
    ∀ (llm : List CtxItem → String → Except String String) (question : String),
      answer_question llm [] question =
        { answer := insufficientMsg, sources := [], context_used := [], confidence := 0,
          question := question } := by
  intro llm question
  rfl

/-- C4 — the confidence is exactly 0 for an empty context list, and for
every non-empty context list with non-negative distances it equals
`max 0 (1 - mean distance)`, which lies in `[0, 1]`. -/
theorem answer_confidence_spec :
    confidenceOf [] = 0 ∧
    ∀ items : List CtxItem, items ≠ [] →
      (∀ it ∈ items, 0 ≤ it.relevance_score) →
      (confidenceOf items =
          max 0 (1 - (items.map (fun it => it.relevance_score)).sum / (items.length : ℚ)) ∧
        0 ≤ confidenceOf items ∧ confidenceOf items ≤ 1) := by
  constructor
  · rfl
  · intro items hne hnn
    have hval : confidenceOf items = answerConfidence items := by
      unfold confidenceOf answer_question
      rw [if_neg (by simpa [List.isEmpty_iff] using hne)]
    refine ⟨hval, ?_, ?_⟩
    · rw [hval]; exact le_max_left 0 _
    · rw [hval]
      have hsum : 0 ≤ (items.map (fun it => it.relevance_score)).sum :=
        List.sum_nonneg (by
          intro x hx
          rcases List.mem_map.mp hx with ⟨it, hit, hxe⟩
          exact hxe ▸ hnn it hit)
      have hlen : (0:ℚ) ≤ (items.length : ℚ) := by positivity
      have hmean : 0 ≤ (items.map (fun it => it.relevance_score)).sum / (items.length : ℚ) :=
        div_nonneg hsum hlen
      have h1 : (1:ℚ) - (items.map (fun it => it.relevance_score)).sum / (items.length : ℚ) ≤ 1 := by
        linarith
      exact max_le (by norm_num) h1

/-- C4 witness: the confidence theorem applied at a concrete singleton
context list with score 0 — the confidence is within bounds. -/
theorem answer_confidence_spec_witness :
    0 ≤ confidenceOf [⟨"c", 0, "faq", "T", "faq", none, none⟩] ∧
      confidenceOf [⟨"c", 0, "faq", "T", "faq", none, none⟩] ≤ 1 :=
  ⟨(answer_confidence_spec.2 _ (by decide) (by decide)).2.1,
   (answer_confidence_spec.2 _ (by decide) (by decide)).2.2⟩

/-! The Chunker.  Modelled from the spec: the splitting itself is performed
by the external `RecursiveCharacterTextSplitter` library class configured in
`DocumentProcessor.__init__` (separators `"\n\n"`, `"\n"`, `"."`, `"!"`,
`"?"`, `","`, `" "`, `""`; `length_function=len`), whose code is not part of
this repository.  Following spec §4.3: split on the first separator whose
pieces all fit within `chunkSize`, then reassemble pieces into windows of at
most `chunkSize` characters, each window after the first repeating the
trailing `overlap` characters of the previous window. -/

/-- First occurrence of `sep` in a list: `some (before, after)` with the
separator removed, or `none`. -/
def breakOnSep (sep : List Char) : List Char → Option (List Char × List Char)
  | [] => none
  | c :: cs =>
    if sep.isPrefixOf (c :: cs) then some ([], (c :: cs).drop sep.length)
    else (breakOnSep sep cs).map (fun pr => (c :: pr.1, pr.2))

/-- Python `str.split(sep)` (fuel-based; fuel `l.length + 1` suffices since
each found separator occurrence consumes at least one character). -/
def splitSepAux (sep : List Char) : Nat → List Char → List (List Char)
  | 0, l => [l]
  | f + 1, l =>
    match breakOnSep sep l with
    | none => [l]
    | some (b, a) => b :: splitSepAux sep f a

/-- Python `str.split(sep)` on character lists. -/
def splitOnSep (sep : List Char) (l : List Char) : List (List Char) :=
  splitSepAux sep (l.length + 1) l

/-- The splitter's separator cascade, coarsest to finest (the final empty
separator, splitting into single characters, is handled as the fallback of
`choosePieces`). -/
def sepCascade : List (List Char) :=
  ["\n\n".data, "\n".data, ".".data, "!".data, "?".data, ",".data, " ".data]

/-- Modelled from the spec: split `text` on the first separator of the
cascade whose pieces all have length at most `chunkSize`; if none qualifies
the empty separator splits into single characters. -/
def choosePieces (chunkSize : Nat) (text : List Char) : List (List Char) :=
  match sepCascade.find? (fun sep => (splitOnSep sep text).all (fun p => p.length ≤ chunkSize)) with
  | some sep => splitOnSep sep text
  | none => text.map (fun c => [c])

/-- Modelled from the spec: merge pieces into windows.  A window is a pair
`(carry, fresh)`: `carry` repeats the trailing `overlap` characters of the
previous window, `fresh` is new text.  A piece is appended while the window
stays within `chunkSize`; otherwise the window is emitted and a new one
starts with the overlap carry (dropped if even `carry ++ piece` would
exceed `chunkSize`). -/
def buildWindows (chunkSize overlap : Nat) :
    List Char × List Char → List (List Char) → List (List Char × List Char)
  | w, [] => [w]
  | w, p :: ps =>
    if (w.1 ++ w.2).length + p.length ≤ chunkSize then
      buildWindows chunkSize overlap (w.1, w.2 ++ p) ps
    else
      let cur := w.1 ++ w.2
      let carry := cur.drop (cur.length - overlap)
      w :: buildWindows chunkSize overlap
        (if carry.length + p.length ≤ chunkSize then (carry, p) else ([], p)) ps

/-- The chunker on one section, keeping windows as `(carry, fresh)` pairs. -/
def splitSectionP (chunkSize overlap : Nat) (text : List Char) : List (List Char × List Char) :=
  if text.isEmpty then [] else buildWindows chunkSize overlap ([], []) (choosePieces chunkSize text)

/-- The chunker on one section: the produced chunk texts. -/
def splitSection (chunkSize overlap : Nat) (text : List Char) : List (List Char) :=
  (splitSectionP chunkSize overlap text).map (fun w => w.1 ++ w.2)

theorem choosePieces_le (chunkSize : Nat) (hcs : 0 < chunkSize) (text : List Char) :
    ∀ p ∈ choosePieces chunkSize text, p.length ≤ chunkSize := by
  unfold choosePieces
  rcases hfind : sepCascade.find?
      (fun sep => (splitOnSep sep text).all (fun p => p.length ≤ chunkSize)) with _ | sep
  · intro p hp
    rcases List.mem_map.mp hp with ⟨c, _, hc⟩
    rw [← hc]
    simpa using hcs
  · intro p hp
    have hall := List.find?_some hfind
    exact of_decide_eq_true (List.all_eq_true.mp hall p hp)

theorem buildWindows_bound (chunkSize overlap : Nat) :
    ∀ (ps : List (List Char)) (w : List Char × List Char),
      (∀ p ∈ ps, p.length ≤ chunkSize) → (w.1 ++ w.2).length ≤ chunkSize →
      ∀ v ∈ buildWindows chunkSize overlap w ps, (v.1 ++ v.2).length ≤ chunkSize := by
  intro ps
  induction ps with
  | nil =>
    intro w _ hw v hv
    simp only [buildWindows, List.mem_singleton] at hv
    rw [hv]; exact hw
  | cons p ps ih =>
    intro w hps hw v hv
    have hps' : ∀ q ∈ ps, q.length ≤ chunkSize := fun q hq => hps q (List.mem_cons_of_mem p hq)
    have hp : p.length ≤ chunkSize := hps p (List.mem_cons_self p ps)
    by_cases hfit : (w.1 ++ w.2).length + p.length ≤ chunkSize
    · simp only [buildWindows, hfit, if_pos] at hv
      refine ih (w.1, w.2 ++ p) hps' ?_ v hv
      simp only [List.length_append] at hfit ⊢
      omega
    · simp only [buildWindows, hfit, if_neg, not_false_iff] at hv
      rcases List.mem_cons.mp hv with h1 | h2
      · rw [h1]; exact hw
      · set cur := w.1 ++ w.2 with hcur
        set carry := cur.drop (cur.length - overlap) with hcarry
        by_cases hcf : carry.length + p.length ≤ chunkSize
        · rw [if_pos hcf] at h2
          exact ih (carry, p) hps' (by simpa using hcf) v h2
        · rw [if_neg hcf] at h2
          exact ih ([], p) hps' (by simpa using hp) v h2

theorem buildWindows_fresh_join (chunkSize overlap : Nat) :
    ∀ (ps : List (List Char)) (w : List Char × List Char),
      ((buildWindows chunkSize overlap w ps).map (fun v => v.2)).flatten =
        w.2 ++ ps.flatten := by
  intro ps
  induction ps with
  | nil => intro w; simp [buildWindows]
  | cons p ps ih =>
    intro w
    by_cases hfit : (w.1 ++ w.2).length + p.length ≤ chunkSize
    · simp only [buildWindows, hfit, if_pos]
      rw [ih]
      simp [List.append_assoc]
    · simp only [buildWindows, hfit, if_neg, not_false_iff, List.map_cons, List.flatten_cons]
      by_cases hcf : ((w.1 ++ w.2).drop ((w.1 ++ w.2).length - overlap)).length + p.length ≤ chunkSize
      · rw [if_pos hcf, ih]
      · rw [if_neg hcf, ih]

theorem buildWindows_carry_le (chunkSize overlap : Nat) :
    ∀ (ps : List (List Char)) (w : List Char × List Char),
      w.1.length ≤ overlap →
      ∀ v ∈ buildWindows chunkSize overlap w ps, v.1.length ≤ overlap := by
  intro ps
  induction ps with
  | nil =>
    intro w hw v hv
    simp only [buildWindows, List.mem_singleton] at hv
    rw [hv]; exact hw
  | cons p ps ih =>
    intro w hw v hv
    by_cases hfit : (w.1 ++ w.2).length + p.length ≤ chunkSize
    · simp only [buildWindows, hfit, if_pos] at hv
      exact ih (w.1, w.2 ++ p) hw v hv
    · simp only [buildWindows, hfit, if_neg, not_false_iff] at hv
      rcases List.mem_cons.mp hv with h1 | h2
      · rw [h1]; exact hw
      · set cur := w.1 ++ w.2 with hcur
        by_cases hcf : (cur.drop (cur.length - overlap)).length + p.length ≤ chunkSize
        · rw [if_pos hcf] at h2
          refine ih _ ?_ v h2
          simp only [List.length_drop]
          omega
        · rw [if_neg hcf] at h2
          exact ih ([], p) (by simp) v h2

/-- C5 — for every section text and configuration with
`chunkSize > overlap ≥ 0`: every chunk produced by the chunker has length
at most `chunkSize` (the model never needs the unsplittable-token
exception, since the single-character fallback separator always yields
fitting pieces); the fresh (non-overlap) parts of the chunks concatenate,
in order, exactly to the concatenation of the split pieces of the input —
output order equals input order; and each chunk repeats at most `overlap`
trailing characters of its predecessor. -/
theorem splitSection_bound_and_order (text : List Char) (chunkSize overlap : Nat)
    (hov : overlap < chunkSize) :
    (∀ w ∈ splitSection chunkSize overlap text, w.length ≤ chunkSize) ∧
    ((splitSectionP chunkSize overlap text).map (fun v => v.2)).flatten =
        (if text.isEmpty then [] else (choosePieces chunkSize text).flatten) ∧
    (∀ v ∈ splitSectionP chunkSize overlap text, v.1.length ≤ overlap) := by
  have hcs : 0 < chunkSize := by omega
  refine ⟨?_, ?_, ?_⟩
  · intro w hw
    unfold splitSection at hw
    rcases List.mem_map.mp hw with ⟨v, hv, hve⟩
    unfold splitSectionP at hv
    by_cases hemp : text.isEmpty
    · rw [if_pos hemp] at hv; cases hv
    · rw [if_neg hemp] at hv
      rw [← hve]
      exact buildWindows_bound chunkSize overlap (choosePieces chunkSize text) ([], [])
        (choosePieces_le chunkSize hcs text) (by simp) v hv
  · unfold splitSectionP
    by_cases hemp : text.isEmpty
    · rw [if_pos hemp, if_pos hemp]; rfl
    · rw [if_neg hemp, if_neg hemp]
      simpa using buildWindows_fresh_join chunkSize overlap (choosePieces chunkSize text) ([], [])
  · intro v hv
    unfold splitSectionP at hv
    by_cases hemp : text.isEmpty
    · rw [if_pos hemp] at hv; cases hv
    · rw [if_neg hemp] at hv
      exact buildWindows_carry_le chunkSize overlap (choosePieces chunkSize text) ([], [])
        (by simp) v hv

/-- C5 witness: the chunk bound and order theorem applied at the concrete
section `ab cd ef` with `chunkSize = 4`, `overlap = 1`. -/
theorem splitSection_bound_and_order_witness :
    1 < 4 ∧ ∀ w ∈ splitSection 4 1 "ab cd ef".data, w.length ≤ 4 :=
  ⟨by decide, (splitSection_bound_and_order "ab cd ef".data 4 1 (by decide)).1⟩

/-! A backtracking regex engine mirroring Python `re` semantics: leftmost
match, ordered alternation, greedy and lazy quantifiers with the standard
empty-progress guard, zero-width lookahead, `^` under MULTILINE, `\Z`, and
`.` matching newlines under DOTALL (`anyc`).  Continuation-passing style;
fuel bounds the recursion depth (every recursive call decrements it). -/

/-- Capture list: `(group id, start, end)` triples, most recent first. -/
abbrev Caps := List (Nat × Nat × Nat)

/-- Regex abstract syntax. -/
inductive RE where
  | eps
  | anyc
  | cls (p : Char → Bool)
  | lit (cs : List Char)
  | cat (a b : RE)
  | alt (a b : RE)
  | starG (a : RE)
  | starL (a : RE)
  | look (a : RE)
  | bol
  | eos
  | grp (n : Nat) (a : RE)

/-- Ordered choice on match results (left alternative preferred). -/
def oalt : Option (Nat × Caps) → Option (Nat × Caps) → Option (Nat × Caps)
  | some x, _ => some x
  | none, b => b

/-- The literal `cs` occurs in `s` at position `pos`. -/
def litAt (cs s : List Char) (pos : Nat) : Bool := cs.isPrefixOf (s.drop pos)

/-- The backtracking matcher: `mat fuel r s pos caps k` tries to match `r`
in `s` at `pos` and on success passes the new position and captures to the
continuation `k`; alternatives are explored in Python's preference order. -/
def mat : Nat → RE → List Char → Nat → Caps → (Nat → Caps → Option (Nat × Caps)) →
    Option (Nat × Caps)
  | 0, _, _, _, _, _ => none
  | f + 1, r, s, pos, caps, k =>
    match r with
    | .eps => k pos caps
    | .anyc =>
      match s.get? pos with
      | some _ => k (pos + 1) caps
      | none => none
    | .cls p =>
      match s.get? pos with
      | some c => if p c then k (pos + 1) caps else none
      | none => none
    | .lit cs => if litAt cs s pos then k (pos + cs.length) caps else none
    | .cat a b => mat f a s pos caps (fun q caps2 => mat f b s q caps2 k)
    | .alt a b => oalt (mat f a s pos caps k) (mat f b s pos caps k)
    | .starG a =>
      oalt (mat f a s pos caps
              (fun q caps2 => if q = pos then none else mat f (.starG a) s q caps2 k))
        (k pos caps)
    | .starL a =>
      oalt (k pos caps)
        (mat f a s pos caps
          (fun q caps2 => if q = pos then none else mat f (.starL a) s q caps2 k))
    | .look a =>
      match mat f a s pos caps (fun q caps2 => some (q, caps2)) with
      | some _ => k pos caps
      | none => none
    | .bol => if pos = 0 ∨ s.get? (pos - 1) = some '\n' then k pos caps else none
    | .eos => if pos = s.length then k pos caps else none
    | .grp n a => mat f a s pos caps (fun q caps2 => k q ((n, pos, q) :: caps2))

/-- Matcher fuel: generous linear bound in the input length (each star
iteration and each node of the pattern costs one unit of depth). -/
def matFuel (s : List Char) : Nat := 16 * s.length + 400

/-- Scan for non-overlapping matches from left to right (Python
`re.findall`): on a match, resume at its end (advancing one position past
an empty match); on failure, advance one position. -/
def findallAux (r : RE) (s : List Char) : Nat → Nat → List Caps
  | 0, _ => []
  | f + 1, pos =>
    if pos > s.length then []
    else
      match mat (matFuel s) r s pos [] (fun q caps => some (q, caps)) with
      | some (q, caps) => caps :: findallAux r s f (if q = pos then pos + 1 else q)
      | none => findallAux r s f (pos + 1)

/-- Python `re.findall`: capture lists of all non-overlapping matches. -/
def findall (r : RE) (s : List Char) : List Caps := findallAux r s (s.length + 1) 0

/-- The span recorded for capture group `n`, if the group participated. -/
def capSpan (caps : Caps) (n : Nat) : Option (Nat × Nat) :=
  (caps.find? (fun t => t.1 = n)).map (fun t => t.2)

/-- The text of capture group `n` of one match (empty if absent). -/
def capText (s : List Char) (caps : Caps) (n : Nat) : List Char :=
  match capSpan caps n with
  | some pr => (s.drop pr.1).take (pr.2 - pr.1)
  | none => []

/-! The extraction regexes of `DocumentProcessor`, compiled to `RE`.  The
FAQ and meeting patterns are used with `re.MULTILINE | re.DOTALL` (for the
meeting ones also `re.IGNORECASE`), so `.` is `anyc`; the bullet pattern is
used with `re.MULTILINE` only, so its `.` excludes newlines. -/

/-- Right-nested concatenation of a pattern list. -/
def cats : List RE → RE
  | [] => .eps
  | [r] => r
  | r :: rs => .cat r (cats rs)

/-- A literal string pattern. -/
def strRE (s : String) : RE := .lit s.data

/-- `(?:^|\n)` under MULTILINE. -/
def anchorRE : RE := .alt .bol (strRE "\n")

/-- `\s*` (greedy). -/
def wsStar : RE := .starG (.cls isPySpace)

/-- `.+` (greedy, DOTALL). -/
def dotPlusG : RE := .cat .anyc (.starG .anyc)

/-- `.+?` (lazy, DOTALL). -/
def dotPlusL : RE := .cat .anyc (.starL .anyc)

/-- `.*?` (lazy, DOTALL). -/
def dotStarL : RE := .starL .anyc

/-- `.*` (greedy, DOTALL). -/
def dotStarG : RE := .starG .anyc

/-- `X?` (greedy option). -/
def reOpt (a : RE) : RE := .alt a .eps

/-- A case-insensitive literal (IGNORECASE over ASCII keywords). -/
def litCI (s : String) : RE := cats (s.data.map (fun c => .cls (fun d => d.toLower == c.toLower)))

/-- The primary FAQ pattern
`(?:^|\n)(.+\?)\s*\n(.*?)(?=\n.*\?|\n\n|\Z)` (MULTILINE, DOTALL). -/
def faqPattern : RE :=
  cats [anchorRE,
        .grp 1 (.cat dotPlusG (strRE "?")),
        wsStar, strRE "\n",
        .grp 2 dotStarL,
        .look (.alt (cats [strRE "\n", dotStarG, strRE "?"]) (.alt (strRE "\n\n") .eos))]

/-- The fallback labeled-pair pattern
`(?:^|\n)(?:Q:|Question:)\s*(.+?)\n(?:A:|Answer:)\s*(.*?)(?=\n(?:Q:|Question:)|\n\n|\Z)`
(MULTILINE, DOTALL). -/
def qaPattern : RE :=
  cats [anchorRE,
        .alt (strRE "Q:") (strRE "Question:"),
        wsStar,
        .grp 1 dotPlusL,
        strRE "\n",
        .alt (strRE "A:") (strRE "Answer:"),
        wsStar,
        .grp 2 dotStarL,
        .look (.alt (.cat (strRE "\n") (.alt (strRE "Q:") (strRE "Question:")))
          (.alt (strRE "\n\n") .eos))]

/-- `(?:agenda|topics?|discussion|action items?|decisions?|notes?|summary)`
with IGNORECASE, alternatives in source order. -/
def meetingKw : RE :=
  .alt (litCI "agenda")
    (.alt (.cat (litCI "topic") (reOpt (litCI "s")))
      (.alt (litCI "discussion")
        (.alt (.cat (litCI "action item") (reOpt (litCI "s")))
          (.alt (.cat (litCI "decision") (reOpt (litCI "s")))
            (.alt (.cat (litCI "note") (reOpt (litCI "s"))) (litCI "summary"))))))

/-- Meeting pattern (a): keyword headers. -/
def meetPatA : RE :=
  cats [anchorRE,
        .grp 1 (.cat meetingKw dotStarL),
        strRE ":", wsStar, strRE "\n",
        .grp 2 dotStarL,
        .look (.alt (.cat (strRE "\n") meetingKw) (.alt (strRE "\n\n") .eos))]

/-- `\d+` (greedy). -/
def digitPlus : RE := .cat (.cls Char.isDigit) (.starG (.cls Char.isDigit))

/-- Meeting pattern (b): numbered-list items
`(?:^|\n)(\d+\.\s*.+?)\n(.*?)(?=\n\d+\.|\n\n|\Z)`. -/
def meetPatB : RE :=
  cats [anchorRE,
        .grp 1 (cats [digitPlus, strRE ".", wsStar, dotPlusL]),
        strRE "\n",
        .grp 2 dotStarL,
        .look (.alt (cats [strRE "\n", digitPlus, strRE "."]) (.alt (strRE "\n\n") .eos))]

/-- `#{1,3}` (greedy: three, then two, then one). -/
def hashes : RE := .cat (strRE "#") (.alt (.cat (strRE "#") (reOpt (strRE "#"))) .eps)

/-- Meeting pattern (c): markdown headers
`(?:^|\n)(#{1,3}\s*.+?)\n(.*?)(?=\n#{1,3}|\n\n|\Z)`. -/
def meetPatC : RE :=
  cats [anchorRE,
        .grp 1 (cats [hashes, wsStar, dotPlusL]),
        strRE "\n",
        .grp 2 dotStarL,
        .look (.alt (.cat (strRE "\n") hashes) (.alt (strRE "\n\n") .eos))]

/-- `[-*•]`. -/
def bulletCls : RE := .cls (fun c => c == '-' || c == '*' || c == Char.ofNat 0x2022)

/-- `.` without DOTALL (the bullet pattern uses MULTILINE only). -/
def anyNoNl : RE := .cls (fun c => !(c == '\n'))

/-- Bullet-group pattern `(?:^|\n)((?:[-*•]\s*.+?)(?:\n[-*•].*)*)`
(MULTILINE). -/
def bulletPat : RE :=
  .cat anchorRE
    (.grp 1 (.cat (cats [bulletCls, wsStar, .cat anyNoNl (.starL anyNoNl)])
      (.starG (cats [strRE "\n", bulletCls, .starG anyNoNl]))))

/-! `DocumentProcessor.extract_sections` and its helpers. -/

/-- A logical section extracted from a document. -/
structure PySection where
  content : List Char
  section_type : String
  title : List Char
  question : Option (List Char)
  answer : Option (List Char)
deriving DecidableEq

/-- Two-group matches of a pattern over a text. -/
def matchPairs (r : RE) (s : List Char) : List (List Char × List Char) :=
  (findall r s).map (fun caps => (capText s caps 1, capText s caps 2))

/-- One FAQ section: content is rendered as `Q: {question}\nA: {answer}`. -/
def mkFaqSection (q a : List Char) : PySection :=
  { content := "Q: ".data ++ q ++ "\nA: ".data ++ a
    section_type := "faq", title := q, question := some q, answer := some a }

/-- Keep a question/answer pair only if both are non-empty after stripping. -/
def faqOfPair (pr : List Char × List Char) : Option PySection :=
  let q := stripWs pr.1
  let a := stripWs pr.2
  if q ≠ [] ∧ a ≠ [] then some (mkFaqSection q a) else none

/-- `DocumentProcessor._extract_faq_sections`: primary `?`-line pattern,
then the labeled `Q:`/`A:` fallback, then the whole text as one general
section titled `FAQ Content`. -/
def extractFaqSections (text : List Char) : List PySection :=
  let s1 := (matchPairs faqPattern text).filterMap faqOfPair
  if s1 ≠ [] then s1
  else
    let s2 := (matchPairs qaPattern text).filterMap faqOfPair
    if s2 ≠ [] then s2
    else [{ content := text, section_type := "general", title := "FAQ Content".data,
            question := none, answer := none }]

/-- One meeting section: content is `{title}\n{content}`. -/
def meetingOfPair (pr : List Char × List Char) : Option PySection :=
  let t := stripWs pr.1
  let c := stripWs pr.2
  if t ≠ [] ∧ c ≠ [] then
    some { content := t ++ "\n".data ++ c, section_type := "meeting_section", title := t,
           question := none, answer := none }
  else none

/-- First line of a text (characters before the first newline). -/
def firstLine (l : List Char) : List Char := l.takeWhile (fun c => !(c == '\n'))

/-- One bullet-group section: title is the first line truncated to 50
characters plus an ellipsis. -/
def bulletOfMatch (m : List Char) : Option PySection :=
  let c := stripWs m
  if c ≠ [] then
    some { content := c, section_type := "meeting_bullet",
           title := (firstLine c).take 50 ++ "...".data, question := none, answer := none }
  else none

/-- `DocumentProcessor._extract_meeting_sections`: the three header pattern
families are all applied and their results unioned; if none fire, bullet
groups; if still none, the whole text as one general section. -/
def extractMeetingSections (text : List Char) : List PySection :=
  let s1 := (matchPairs meetPatA text).filterMap meetingOfPair ++
            (matchPairs meetPatB text).filterMap meetingOfPair ++
            (matchPairs meetPatC text).filterMap meetingOfPair
  if s1 ≠ [] then s1
  else
    let s2 := ((findall bulletPat text).map (fun caps => capText text caps 1)).filterMap
      bulletOfMatch
    if s2 ≠ [] then s2
    else [{ content := text, section_type := "general", title := "Meeting Notes".data,
            question := none, answer := none }]

/-- `DocumentProcessor.extract_sections`: dispatch on document type, with a
single general section for unknown types. -/
def extract_sections (text : List Char) (document_type : String) : List PySection :=
  if document_type = "faq" then extractFaqSections text
  else if document_type = "meeting_notes" then extractMeetingSections text
  else [{ content := text, section_type := "general", title := "Content".data,
          question := none, answer := none }]

/-- The FAQ extraction scenario input
`"What is X?\nX is Y.\n\nWhat is Z?\nZ is W."`. -/
def c6Input : List Char := "What is X?\nX is Y.\n\nWhat is Z?\nZ is W.".data

/-- C6 — REFUTED on the code: because the FAQ pattern is compiled with
`re.DOTALL`, the greedy `.+` in the question group spans newlines, so on
the scenario input `findall` produces a single match whose question is the
whole prefix `What is X?\nX is Y.\n\nWhat is Z?` and whose answer is
`Z is W.` — one faq section, not the two claimed; the code's own comment
says the pattern matches lines that end with `?`. -/
theorem extractFaqSections_scenario_single_section :
    extractFaqSections c6Input =
      [mkFaqSection "What is X?\nX is Y.\n\nWhat is Z?".data "Z is W.".data] ∧
      (extractFaqSections c6Input).length = 1 := by
  refine ⟨by decide, ?_⟩
  have h : extractFaqSections c6Input =
      [mkFaqSection "What is X?\nX is Y.\n\nWhat is Z?".data "Z is W.".data] := by decide
  rw [h]
  rfl

/-! Soundness of a syntactic requiredness analysis: if every way to match
`r` must consume one of the literals in `L`, then a successful match
implies one of those literals occurs in the subject — so absence of the
literals makes `findall` empty. -/

/-- `ReqL L r`: every successful match of `r` consumes some literal of `L`
in full (a syntactic sufficient condition). -/
inductive ReqL (L : List (List Char)) : RE → Prop where
  | lit : ∀ cs, cs ∈ L → ReqL L (.lit cs)
  | catL : ∀ a b, ReqL L a → ReqL L (.cat a b)
  | catR : ∀ a b, ReqL L b → ReqL L (.cat a b)
  | alt : ∀ a b, ReqL L a → ReqL L b → ReqL L (.alt a b)
  | grp : ∀ n a, ReqL L a → ReqL L (.grp n a)

theorem mat_none_of_k_none :
    ∀ (f : Nat) (r : RE) (s : List Char) (pos : Nat) (caps : Caps)
      (k : Nat → Caps → Option (Nat × Caps)),
      (∀ q c, k q c = none) → mat f r s pos caps k = none := by
  intro f
  induction f with
  | zero => intro r s pos caps k _; rfl
  | succ f ih =>
    intro r s pos caps k hk
    cases r with
    | eps => exact hk pos caps
    | anyc =>
      show (match s.get? pos with
        | some _ => k (pos + 1) caps
        | none => none) = none
      cases s.get? pos with
      | none => rfl
      | some c => exact hk (pos + 1) caps
    | cls p =>
      show (match s.get? pos with
        | some c => if p c then k (pos + 1) caps else none
        | none => none) = none
      cases s.get? pos with
      | none => rfl
      | some c =>
        show (if p c then k (pos + 1) caps else none) = none
        by_cases hp : p c
        · rw [if_pos hp]; exact hk _ _
        · rw [if_neg hp]
    | lit cs =>
      show (if litAt cs s pos then k (pos + cs.length) caps else none) = none
      by_cases hl : litAt cs s pos
      · rw [if_pos hl]; exact hk _ _
      · rw [if_neg hl]
    | cat a b =>
      exact ih a s pos caps _ (fun q c => ih b s q c k hk)
    | alt a b =>
      show oalt (mat f a s pos caps k) (mat f b s pos caps k) = none
      rw [ih a s pos caps k hk, ih b s pos caps k hk]
      rfl
    | starG a =>
      show oalt (mat f a s pos caps
          (fun q c => if q = pos then none else mat f (.starG a) s q c k)) (k pos caps) = none
      have h1 : mat f a s pos caps
          (fun q c => if q = pos then none else mat f (.starG a) s q c k) = none := by
        apply ih
        intro q c
        by_cases hq : q = pos
        · rw [if_pos hq]
        · rw [if_neg hq]; exact ih _ s q c k hk
      rw [h1, hk pos caps]
      rfl
    | starL a =>
      show oalt (k pos caps) (mat f a s pos caps
          (fun q c => if q = pos then none else mat f (.starL a) s q c k)) = none
      have h1 : mat f a s pos caps
          (fun q c => if q = pos then none else mat f (.starL a) s q c k) = none := by
        apply ih
        intro q c
        by_cases hq : q = pos
        · rw [if_pos hq]
        · rw [if_neg hq]; exact ih _ s q c k hk
      rw [h1, hk pos caps]
      rfl
    | look a =>
      show (match mat f a s pos caps (fun q c => some (q, c)) with
        | some _ => k pos caps
        | none => none) = none
      cases mat f a s pos caps (fun q c => some (q, c)) with
      | none => rfl
      | some x => exact hk pos caps
    | bol =>
      show (if pos = 0 ∨ s.get? (pos - 1) = some '\n' then k pos caps else none) = none
      by_cases h : pos = 0 ∨ s.get? (pos - 1) = some '\n'
      · rw [if_pos h]; exact hk _ _
      · rw [if_neg h]
    | eos =>
      show (if pos = s.length then k pos caps else none) = none
      by_cases h : pos = s.length
      · rw [if_pos h]; exact hk _ _
      · rw [if_neg h]
    | grp n a =>
      exact ih a s pos caps _ (fun q c => hk q _)

theorem mat_req {L : List (List Char)} :
    ∀ (f : Nat) (r : RE), ReqL L r →
      ∀ (s : List Char) (pos : Nat) (caps : Caps)
        (k : Nat → Caps → Option (Nat × Caps)) (res : Nat × Caps),
        mat f r s pos caps k = some res → ∃ l ∈ L, l <:+: s := by
  intro f
  induction f with
  | zero => intro r _ s pos caps k res h; cases h
  | succ f ih =>
    intro r hr s pos caps k res h
    cases hr with
    | lit cs hcs =>
      by_cases hl : litAt cs s pos
      · refine ⟨cs, hcs, ?_⟩
        have hpre : cs <+: s.drop pos := List.isPrefixOf_iff_prefix.mp hl
        exact hpre.isInfix.trans (List.drop_suffix pos s).isInfix
      · have hnone : mat (f + 1) (.lit cs) s pos caps k = none := by
          show (if litAt cs s pos then k (pos + cs.length) caps else none) = none
          rw [if_neg hl]
        rw [hnone] at h; cases h
    | catL a b ha => exact ih a ha s pos caps _ res h
    | catR a b hb =>
      by_contra hno
      push_neg at hno
      have hin : ∀ q c, mat f b s q c k = none := by
        intro q c
        cases hmb : mat f b s q c k with
        | none => rfl
        | some r2 =>
          rcases ih b hb s q c k r2 hmb with ⟨l, hl, hinf⟩
          exact absurd hinf (hno l hl)
      have hz : mat (f + 1) (.cat a b) s pos caps k = none :=
        mat_none_of_k_none f a s pos caps _ hin
      rw [hz] at h; cases h
    | alt a b ha hb =>
      have h' : oalt (mat f a s pos caps k) (mat f b s pos caps k) = some res := h
      rcases hma : mat f a s pos caps k with _ | r1
      · rw [hma] at h'
        simp only [oalt] at h'
        exact ih b hb s pos caps k res h'
      · exact ih a ha s pos caps k r1 hma
    | grp n a ha => exact ih a ha s pos caps _ res h

theorem findall_nil {L : List (List Char)} (r : RE) (hr : ReqL L r) (s : List Char)
    (hno : ∀ l ∈ L, ¬(l <:+: s)) : findall r s = [] := by
  suffices h : ∀ f pos, findallAux r s f pos = [] from h _ 0
  intro f
  induction f with
  | zero => intro pos; rfl
  | succ f ih =>
    intro pos
    show (if pos > s.length then [] else
      match mat (matFuel s) r s pos [] (fun q caps => some (q, caps)) with
      | some (q, caps) => caps :: findallAux r s f (if q = pos then pos + 1 else q)
      | none => findallAux r s f (pos + 1)) = []
    by_cases hp : pos > s.length
    · rw [if_pos hp]
    · rw [if_neg hp]
      have hm : mat (matFuel s) r s pos [] (fun q caps => some (q, caps)) = none := by
        cases hmm : mat (matFuel s) r s pos [] (fun q caps => some (q, caps)) with
        | none => rfl
        | some res =>
          rcases mat_req (matFuel s) r hr s pos [] _ res hmm with ⟨l, hl, hinf⟩
          exact absurd hinf (hno l hl)
      rw [hm]
      exact ih (pos + 1)

theorem faqPattern_req : ReqL ["?".data] faqPattern := by
  unfold faqPattern
  simp only [cats]
  exact .catR _ _ (.catL _ _ (.grp _ _ (.catR _ _ (.lit _ (List.mem_singleton.mpr rfl)))))

theorem qaPattern_req : ReqL ["Q:".data, "Question:".data] qaPattern := by
  unfold qaPattern
  simp only [cats]
  exact .catR _ _ (.catL _ _ (.alt _ _ (.lit _ (by simp [strRE]))
    (.lit _ (by simp [strRE]))))

theorem extractFaqSections_ne_nil (text : List Char) : extractFaqSections text ≠ [] := by
  unfold extractFaqSections
  dsimp only
  split
  · assumption
  · split
    · assumption
    · simp

theorem extractMeetingSections_ne_nil (text : List Char) :
    extractMeetingSections text ≠ [] := by
  unfold extractMeetingSections
  dsimp only
  split
  · assumption
  · split
    · assumption
    · simp

/-- C7 — section extraction always returns at least one section, for every
input text and every document type; and for FAQ-typed text containing no
`?` at all and no `Q:`/`Question:` label, the result is exactly one
`general` section titled `FAQ Content` whose content is the full input
text. -/
theorem extract_sections_nonempty_and_fallback :
    (∀ (text : List Char) (document_type : String),
        1 ≤ (extract_sections text document_type).length) ∧
    (∀ text : List Char, '?' ∉ text → ¬("Q:".data <:+: text) →
        ¬("Question:".data <:+: text) →
        extract_sections text "faq" =
          [{ content := text, section_type := "general", title := "FAQ Content".data,
             question := none, answer := none }]) := by
  constructor
  · intro text dt
    unfold extract_sections
    by_cases h1 : dt = "faq"
    · rw [if_pos h1]
      have hp : 0 < (extractFaqSections text).length :=
        List.length_pos.mpr (extractFaqSections_ne_nil text)
      omega
    · rw [if_neg h1]
      by_cases h2 : dt = "meeting_notes"
      · rw [if_pos h2]
        have hp : 0 < (extractMeetingSections text).length :=
          List.length_pos.mpr (extractMeetingSections_ne_nil text)
        omega
      · rw [if_neg h2]; simp
  · intro text hq hQ hQn
    have hfaq : findall faqPattern text = [] := by
      refine findall_nil faqPattern faqPattern_req text ?_
      intro l hl hinf
      have hle : l = "?".data := List.mem_singleton.mp hl
      subst hle
      exact hq (hinf.subset (by decide))
    have hqa : findall qaPattern text = [] := by
      refine findall_nil qaPattern qaPattern_req text ?_
      intro l hl
      rcases List.mem_cons.mp hl with h1 | h2
      · rw [h1]; exact hQ
      · rw [List.mem_singleton.mp h2]; exact hQn
    unfold extract_sections
    rw [if_pos rfl]
    unfold extractFaqSections matchPairs
    rw [hfaq, hqa]
    simp

/-- C7 witness: the theorem applied at the concrete FAQ-typed input
`hello world`, which has no question mark and no labels. -/
theorem extract_sections_nonempty_and_fallback_witness :
    ('?' ∉ "hello world".data) ∧
      extract_sections "hello world".data "faq" =
        [{ content := "hello world".data, section_type := "general",
           title := "FAQ Content".data, question := none, answer := none }] :=
  ⟨by decide, extract_sections_nonempty_and_fallback.2 "hello world".data (by decide)
      (by decide) (by decide)⟩
